import Mathlib

/-!
Verification of `haystack/modeling/model/tokenization.py` against its
natural-language specification.

The Python source is shallowly embedded below.  External collaborators
(the pretrained-tokenizer library, config loading) are modelled as explicit
parameters; Python runtime failures (NameError, UnboundLocalError,
IndexError, TypeError, assertions, ...) are made explicit through an
`Except PyError` result type.  Python local variables that may be read
before assignment are modelled as `Option`-wrapped values, so that a read
of an unassigned local surfaces as `PyError.unboundLocal`, exactly as the
CPython interpreter would raise `UnboundLocalError`.
-/

/-- Python runtime errors that the embedded code can raise. -/
inductive PyError where
  /-- `NameError: name '<n>' is not defined` -/
  | nameError (n : String)
  /-- `UnboundLocalError: local variable '<n>' referenced before assignment` -/
  | unboundLocal (n : String)
  /-- `IndexError` -/
  | indexError
  /-- `TypeError` (e.g. `None + 1` inside a numpy object array) -/
  | typeError
  /-- `ValueError(<msg>)` -/
  | valueError (msg : String)
  /-- `NotImplementedError(<msg>)` -/
  | notImplementedError (msg : String)
  /-- `AssertionError(<msg>)` -/
  | assertionError (msg : String)
  /-- any other exception propagating from the external library -/
  | external
deriving DecidableEq, Repr

instance {ε α : Type _} [DecidableEq ε] [DecidableEq α] : DecidableEq (Except ε α) := fun a b =>
  match a, b with
  | Except.ok x, Except.ok y => decidable_of_iff (x = y) (by simp)
  | Except.error x, Except.error y => decidable_of_iff (x = y) (by simp)
  | Except.ok _, Except.error _ => isFalse (by simp)
  | Except.error _, Except.ok _ => isFalse (by simp)

/-- Does `l` start with `p`? (kernel-reducible helper for the substring test) -/
def beginsWith : List Char → List Char → Bool
  | _, [] => true
  | [], _ :: _ => false
  | a :: as, b :: bs => a = b && beginsWith as bs

/-- Does `needle` occur as a contiguous sublist of `hay`? -/
def hasSubCh (needle : List Char) : List Char → Bool
  | [] => needle.isEmpty
  | c :: rest => beginsWith (c :: rest) needle || hasSubCh needle rest

/-- Python's `needle in haystack` substring test on `str`. -/
def pyContains (hay needle : String) : Bool :=
  hasSubCh needle.data hay.data

/-- ASCII lowercasing of one character (embedding of `str.lower` for the
ASCII model names the code deals with). -/
def asciiLower (c : Char) : Char :=
  if 65 ≤ c.toNat && c.toNat ≤ 90 then Char.ofNat (c.toNat + 32) else c

/-- Embedding of Python's `str.lower()`. -/
def pyLower (s : String) : String :=
  ⟨s.data.map asciiLower⟩

/-- Python truthiness of an `Optional[str]` value: `None` and `""` are falsy. -/
def pyTruthyStr : Option String → Bool
  | none => false
  | some s => !s.isEmpty

/-- A loaded model configuration (`AutoConfig`): the two fields the code
reads are `model_type` and `architectures`. -/
structure HFConfig where
  model_type : String
  architectures : List String
deriving DecidableEq, Repr

/-- Outcome of one `AutoConfig.from_pretrained` call: success, an `OSError`
(no config file), or any other exception. -/
inductive LoadResult where
  | ok (c : HFConfig)
  | osError
  | otherError
deriving DecidableEq, Repr

/-- Embedding of `_infer_tokenizer_classname` from the point of line 101
(`if not tokenizer_classname:`) to its `return` (line 127).

The Python locals `model_type` and `tokenizer_classname` are passed in as
`Option`-wrapped values: the outer `none` means *never assigned*, so a read
raises `UnboundLocalError`.  `tcn` holds the Python value
`TOKENIZERS_MAPPING.get(config.model_type, None)` when it was assigned,
hence the inner `Option String`.

`mapping` embeds `TOKENIZERS_MAPPING.get`, `hints` embeds the insertion-ordered
items of `TOKENIZERS_STRING_HINTS`; both tables live in
`haystack/modeling/model/_mappings.py` and are abstracted as parameters. -/
def inferTail (hints : List (String × String)) (name : String) (c : HFConfig)
    (model_type : Option String) (tcn : Option (Option String)) :
    Except PyError (Option String) :=
  match tcn with
  | none => Except.error (PyError.unboundLocal "tokenizer_classname")
  | some t =>
    if pyTruthyStr t then
      Except.ok t
    else
      match model_type with
      | none => Except.error (PyError.unboundLocal "model_type")
      | some mt =>
        if mt = "dpr" then
          match c.architectures.head? with
          | none => Except.error PyError.indexError
          | some a0 =>
            if a0 = "DPRQuestionEncoder" then
              Except.ok (some "DPRQuestionEncoderTokenizer")
            else if a0 = "DPRContextEncoder" then
              Except.ok (some "DPRContextEncoderTokenizer")
            else if a0 = "DPRReader" then
              Except.error (PyError.notImplementedError "DPRReader models are currently not supported.")
            else
              Except.ok t
        else
          let candidates := (hints.filter (fun kv => pyContains name kv.1)).map Prod.snd
          if candidates.isEmpty then
            Except.error (PyError.valueError "Could not infer tokenizer_class from model config or name")
          else
            let cls := candidates.headD ""
            if cls = "Roberta" && pyContains (pyLower name) "mlm" then
              Except.error (PyError.notImplementedError "MLM part of codebert is currently not supported in Haystack")
            else
              Except.ok (some cls)

/-- Embedding of `_infer_tokenizer_classname` (tokenization.py lines 79-127).

`primary` is the outcome of `AutoConfig.from_pretrained(path)`;
`secondary` the outcome of
`AutoConfig.from_pretrained(path + "/language_model_config.json")`.

Faithfulness notes:
* a non-`OSError` failure of the primary load is not caught and propagates;
* any failure of the secondary load lands in the `except Exception` handler,
  which executes `Tokenizer._infer_tokenizer_class_from_string(...)` --
  but the name `Tokenizer` is neither defined nor imported in the module,
  so CPython raises `NameError: name 'Tokenizer' is not defined`;
* when the primary load succeeds, neither `tokenizer_classname` nor
  `model_type` has been assigned when line 101 reads `tokenizer_classname`
  (the assignments on lines 91-92 live inside the `except OSError` branch),
  so CPython raises `UnboundLocalError`. -/
def _infer_tokenizer_classname (primary secondary : LoadResult)
    (mapping : String → Option String) (hints : List (String × String))
    (name : String) : Except PyError (Option String) :=
  match primary with
  | LoadResult.ok c => inferTail hints name c none none
  | LoadResult.otherError => Except.error PyError.external
  | LoadResult.osError =>
    match secondary with
    | LoadResult.ok c =>
        inferTail hints name c (some c.model_type) (some (mapping c.model_type))
    | LoadResult.osError => Except.error (PyError.nameError "Tokenizer")
    | LoadResult.otherError => Except.error (PyError.nameError "Tokenizer")

/-- A demonstration instantiation of `TOKENIZERS_MAPPING.get`. -/
def demoMapping : String → Option String :=
  fun s => if s = "bert" then some "Bert" else if s = "roberta" then some "Roberta" else none

/-- A demonstration instantiation of the ordered items of `TOKENIZERS_STRING_HINTS`. -/
def demoHints : List (String × String) :=
  [("roberta", "Roberta"), ("bert", "Bert")]


/-- `mapExcept`: a Python loop that applies `f` to every element, stopping at
the first raised exception (used where the source iterates with possible
failures). -/
def mapExcept (f : α → Except PyError β) : List α → Except PyError (List β)
  | [] => Except.ok []
  | a :: as =>
    match f a with
    | Except.error e => Except.error e
    | Except.ok b =>
      match mapExcept f as with
      | Except.error e => Except.error e
      | Except.ok bs => Except.ok (b :: bs)

/-- One encoding produced by a *fast* tokenizer of the external library
(`encode_plus` / `batch_encode_plus` output): token ids, character-offset
pairs and the per-token source-word index (`None` for special tokens), plus
the token strings.  The library guarantees the per-token arrays are
parallel, which is recorded in the two length fields. -/
structure Encoding where
  input_ids : List Nat
  offset_mapping : List (Nat × Nat)
  words : List (Option Int)
  tokens : List String
  len_off : offset_mapping.length = input_ids.length
  len_words : words.length = input_ids.length

/-- A fast tokenizer: `encode_plus` is the default call (special tokens
added, as in `tokenize_with_metadata`), `encode_plus_ns` the
`add_special_tokens=False` call used by the batch-QA routine. -/
structure FastTokenizer where
  encode_plus : String → Encoding
  encode_plus_ns : String → Encoding

/-- A slow (Python) tokenizer: the word-level subword splitter
`tokenize` and the `special_tokens_map["unk_token"]` string. -/
structure SlowTokenizer where
  tokenize : String → List String
  unk_token : String

/-- The tokenizer object handed to the functions under test; the code
branches on its `is_fast` attribute. -/
inductive Tokenizer where
  | fast (t : FastTokenizer)
  | slow (t : SlowTokenizer)

/-- `tokenizer.is_fast` -/
def Tokenizer.is_fast : Tokenizer → Bool
  | Tokenizer.fast _ => true
  | Tokenizer.slow _ => false

/-- `np.ediff1d` on an integer array: differences of consecutive elements. -/
def ediff1dInt : List Int → List Int
  | [] => []
  | [_] => []
  | a :: b :: rest => (b - a) :: ediff1dInt (b :: rest)

/-- `np.ediff1d` on an object array that may contain `None` entries
(word ids of special tokens): any subtraction touching `None` raises
`TypeError`, exactly as `None - int` does in Python. -/
def ediff1dOpt : List (Option Int) → Except PyError (List Int)
  | [] => Except.ok []
  | [_] => Except.ok []
  | a :: b :: rest =>
    match a, b with
    | some x, some y =>
      match ediff1dOpt (b :: rest) with
      | Except.error e => Except.error e
      | Except.ok ds => Except.ok ((y - x) :: ds)
    | _, _ => Except.error PyError.typeError

/-- Embedding of `_get_start_of_word_QA` (tokenization.py lines 201-204):
`[1] + list(np.ediff1d(words))`. -/
def _get_start_of_word_QA (word_ids : List (Option Int)) : Except PyError (List Int) :=
  match ediff1dOpt word_ids with
  | Except.error e => Except.error e
  | Except.ok ds => Except.ok (1 :: ds)

/-- Whitespace characters matched by Python's `\s` in `re.sub(r"\s", " ", text)`
(ASCII whitespace plus the Unicode White_Space code points). -/
def isPyWhitespace (c : Char) : Bool :=
  c.toNat = 32 || c.toNat = 9 || c.toNat = 10 || c.toNat = 11 || c.toNat = 12 ||
  c.toNat = 13 || (28 ≤ c.toNat && c.toNat ≤ 31) || c.toNat = 0x85 || c.toNat = 0xa0 ||
  c.toNat = 0x1680 || (0x2000 ≤ c.toNat && c.toNat ≤ 0x200a) || c.toNat = 0x2028 ||
  c.toNat = 0x2029 || c.toNat = 0x202f || c.toNat = 0x205f || c.toNat = 0x3000

/-- The character-by-character scan performed by `re.sub(r"\s", " ", text)`:
every single whitespace character is replaced by one space.  (The pattern
matches one character at a time, so runs are *not* collapsed.) -/
def subWsChar : List Char → List Char
  | [] => []
  | c :: cs => (if isPyWhitespace c then ' ' else c) :: subWsChar cs

/-- Embedding of line 229: `text = re.sub(r"\s", " ", text)`. -/
def normalize_ws (s : String) : String :=
  ⟨subWsChar s.data⟩

/-- The sentinel adjustment of the per-token source-word indices on the fast
path (tokenization.py lines 238-243):

    words = np.array(tokenized2.encodings[0].words)
    words[0] = -1
    words[-1] = words[-2]
    words += 1

`words[0] = -1` raises `IndexError` on an empty array and reading
`words[-2]` raises `IndexError` on a singleton; `None + 1` on a remaining
special-token entry raises `TypeError`. -/
def sentinelAdjust (ws : List (Option Int)) : Except PyError (List Int) :=
  if ws.length < 2 then Except.error PyError.indexError
  else
    let ws1 := ws.set 0 (some (-1));
    let ws2 := ws1.set (ws1.length - 1) (ws1.getD (ws1.length - 2) none);
    mapExcept
      (fun o => match o with
        | some x => Except.ok (x + 1)
        | none => Except.error PyError.typeError)
      ws2

/-- The dictionary built on the fast path: token ids, offsets (first
component of each offset pair) and the integer start-of-word flags
`[0] + list(np.ediff1d(words))` (a position is a word start iff its flag is
nonzero). -/
structure FastDict where
  tokens : List Nat
  offsets : List Nat
  start_of_word : List Int
deriving DecidableEq, Repr

/-- The dictionary built on the slow path: subword token strings, offsets
and boolean start-of-word flags. -/
structure SlowDict where
  tokens : List String
  offsets : List Nat
  start_of_word : List Bool
deriving DecidableEq, Repr

/-- Result of `tokenize_with_metadata`, tagged with the path that produced it. -/
inductive TokenizedDict where
  | fast (d : FastDict)
  | slow (d : SlowDict)
deriving DecidableEq, Repr

/-- The fast branch of `tokenize_with_metadata` (lines 231-256), applied to
the already-normalized text. -/
def tokenizeFast (t : FastTokenizer) (text : String) : Except PyError FastDict :=
  let enc := t.encode_plus text
  match sentinelAdjust enc.words with
  | Except.error e => Except.error e
  | Except.ok ws =>
      Except.ok ⟨enc.input_ids, enc.offset_mapping.map Prod.fst, 0 :: ediff1dInt ws⟩

/-- `re.sub(SPECIAL_TOKENIZER_CHARS, "", tok)` with
`SPECIAL_TOKENIZER_CHARS = r"^(##|Ġ|▁)"`: strip one leading
start-of-word/whitespace marker. -/
def stripSpecial (tok : String) : String :=
  if beginsWith tok.data ['#', '#'] then ⟨tok.data.drop 2⟩
  else if beginsWith tok.data ['Ġ'] then ⟨tok.data.drop 1⟩
  else if beginsWith tok.data ['▁'] then ⟨tok.data.drop 1⟩
  else tok

/-- The inner per-token loop of `_words_to_tokens` (lines 359-374): for each
subword token of one word record the running offset, advance it by the
stripped token length (or by 1 for the unknown token), and flag only the
first subword as a word start. -/
def tokenMeta (t : SlowTokenizer) : List String → Nat → Bool → List Nat × List Bool
  | [], _, _ => ([], [])
  | tok :: rest, w_off, first =>
    let orig := stripSpecial tok;
    let adv := if orig = t.unk_token then 1 else orig.data.length;
    let (os, ss) := tokenMeta t rest (w_off + adv) false;
    (w_off :: os, first :: ss)

/-- The word loop of `_words_to_tokens` (lines 334-374) with its three
accumulators.  Empty words are skipped; the first token-producing word is
tokenized with `tokenizer.tokenize(w)`; any later non-empty word evaluates
`type(tokenizer) == RobertaTokenizer` -- but `RobertaTokenizer` is neither
defined nor imported in the module, so CPython raises
`NameError: name 'RobertaTokenizer' is not defined`. -/
def wordsToTokensGo (t : SlowTokenizer) :
    List (String × Nat) → List String → List Nat → List Bool →
    Except PyError (List String × List Nat × List Bool)
  | [], accT, accO, accS => Except.ok (accT, accO, accS)
  | (w, w_off) :: rest, accT, accO, accS =>
    if w.data.length = 0 then
      wordsToTokensGo t rest accT accO accS
    else if accT.length = 0 then
      let tokens_word := t.tokenize w
      if tokens_word.length = 0 then
        wordsToTokensGo t rest accT accO accS
      else
        let (os, ss) := tokenMeta t tokens_word w_off true
        wordsToTokensGo t rest (accT ++ tokens_word) (accO ++ os) (accS ++ ss)
    else
      Except.error (PyError.nameError "RobertaTokenizer")

/-- Embedding of `_words_to_tokens` (tokenization.py lines 320-376). -/
def _words_to_tokens (t : SlowTokenizer) (words : List String) (word_offsets : List Nat) :
    Except PyError (List String × List Nat × List Bool) :=
  wordsToTokensGo t (words.zip word_offsets) [] [] []

/-- Python `text.split(" ")`: split on every single space, keeping empty
fragments (`String.splitOn` has the same semantics, but is re-implemented
structurally here so that the kernel can evaluate it). -/
def pySplitSpace (s : String) : List String :=
  (splitChar s.data).map (fun l => ⟨l⟩)
where
  /-- split a character list at every `' '` -/
  splitChar : List Char → List (List Char)
    | [] => [[]]
    | c :: cs =>
      let r := splitChar cs
      if c = ' ' then [] :: r
      else match r with
        | [] => [[c]]
        | h :: ts => (c :: h) :: ts

/-- The word-offset accumulation of lines 260-264: each word starts one
character after the previous word ends. -/
def wordOffsets (words : List String) (cumulated : Nat) : List Nat :=
  match words with
  | [] => []
  | w :: rest => cumulated :: wordOffsets rest (cumulated + w.data.length + 1)

/-- The slow branch of `tokenize_with_metadata` (lines 257-268), applied to
the already-normalized text. -/
def tokenizeSlow (t : SlowTokenizer) (text : String) : Except PyError SlowDict :=
  let words := pySplitSpace text
  let offs := wordOffsets words 0
  match _words_to_tokens t words offs with
  | Except.error e => Except.error e
  | Except.ok (tokens, token_offsets, start_of_word) =>
      Except.ok ⟨tokens, token_offsets, start_of_word⟩

/-- Embedding of `tokenize_with_metadata` (tokenization.py lines 207-269):
normalize whitespace, then dispatch on `tokenizer.is_fast`. -/
def tokenize_with_metadata (tokenizer : Tokenizer) (text : String) :
    Except PyError TokenizedDict :=
  let text := normalize_ws text
  match tokenizer with
  | Tokenizer.fast t =>
    match tokenizeFast t text with
    | Except.error e => Except.error e
    | Except.ok d => Except.ok (TokenizedDict.fast d)
  | Tokenizer.slow t =>
    match tokenizeSlow t text with
    | Except.error e => Except.error e
    | Except.ok d => Except.ok (TokenizedDict.slow d)

/-- A slow tokenizer whose subword splitter returns each word as one token. -/
def oneTokenSlow : SlowTokenizer :=
  ⟨fun w => [w], "[UNK]"⟩


/-- One question of a pre-basket: the fields read by the batch-QA routine
(`q["id"]`, `q["question"]`, `q["answers"]`; answers are passed through
untouched and modelled as opaque strings). -/
structure QA where
  id : String
  question : String
  answers : List String
deriving DecidableEq, Repr

/-- One input record of `tokenize_batch_question_answering`
(`d["context"]`, `d["qas"]`). -/
structure PreBasket where
  context : String
  qas : List QA
deriving DecidableEq, Repr

/-- The `raw` dictionary stored into each basket (lines 182-195). -/
structure RawQA where
  document_text : String
  document_tokens : List Nat
  document_offsets : List Nat
  document_start_of_word : List Int
  question_text : String
  question_tokens : List Nat
  question_offsets : List Nat
  question_start_of_word : List Int
  answers : List String
  document_tokens_strings : List String
  question_tokens_strings : List String
deriving DecidableEq, Repr

/-- Modelled from the spec: `SampleBasket`
(`haystack/modeling/data_handler/samples.py`, not under `src/`) is the
"aggregate record holding one document's tokenization plus all associated
questions and answers"; its constructor simply stores the keyword
arguments `raw`, `id_internal`, `id_external` and `samples` (here always
`None`). -/
structure SampleBasket where
  raw : RawQA
  id_internal : String
  id_external : String
  samples : Option Unit
deriving DecidableEq, Repr

/-- The inner question loop of `tokenize_batch_question_answering`
(lines 168-197) for one document: `docIdx` is `indices[i_doc]` and `i_q`
the running `enumerate` counter. -/
def qaQuestions (t : FastTokenizer) (docIdx : Nat) (docText : String)
    (docEnc : Encoding) (docSow : List Int) (i_q : Nat) :
    List QA → Except PyError (List SampleBasket)
  | [] => Except.ok []
  | q :: rest =>
    let tq := t.encode_plus_ns q.question
    match _get_start_of_word_QA tq.words with
    | Except.error e => Except.error e
    | Except.ok qsow =>
      let raw : RawQA :=
        { document_text := docText
          document_tokens := docEnc.input_ids
          document_offsets := docEnc.offset_mapping.map Prod.fst
          document_start_of_word := docSow
          question_text := q.question
          question_tokens := tq.input_ids
          question_offsets := tq.offset_mapping.map Prod.fst
          question_start_of_word := qsow
          answers := q.answers
          document_tokens_strings := docEnc.tokens
          question_tokens_strings := tq.tokens }
      let basket : SampleBasket :=
        { raw := raw
          id_internal := Nat.repr docIdx ++ "-" ++ Nat.repr i_q
          id_external := q.id
          samples := none }
      match qaQuestions t docIdx docText docEnc docSow (i_q + 1) rest with
      | Except.error e => Except.error e
      | Except.ok more => Except.ok (basket :: more)

/-- The outer document loop of `tokenize_batch_question_answering`
(lines 165-197): documents are paired with their pre-computed batch
encoding and start-of-word list; `i_doc` is the running `enumerate`
counter used to index `indices`. -/
def qaDocs (t : FastTokenizer) (indices : List Nat) (i_doc : Nat) :
    List (PreBasket × Encoding × List Int) → Except PyError (List SampleBasket)
  | [] => Except.ok []
  | (d, enc, sow) :: rest =>
    match qaQuestions t (indices.getD i_doc 0) d.context enc sow 0 d.qas with
    | Except.error e => Except.error e
    | Except.ok bs =>
      match qaDocs t indices (i_doc + 1) rest with
      | Except.error e => Except.error e
      | Except.ok more => Except.ok (bs ++ more)

/-- Embedding of `tokenize_batch_question_answering`
(tokenization.py lines 130-198): assert matching index list and fast
tokenizer, batch-encode all document texts (`add_special_tokens=False`),
derive per-document start-of-word lists, then build one basket *per
question* with `internal_id = f"{indices[i_doc]}-{i_q}"`. -/
def tokenize_batch_question_answering (pre_baskets : List PreBasket)
    (tokenizer : Tokenizer) (indices : List Nat) :
    Except PyError (List SampleBasket) :=
  if indices.length ≠ pre_baskets.length then
    Except.error (PyError.assertionError "len(indices) == len(pre_baskets)")
  else
    match tokenizer with
    | Tokenizer.slow _ =>
        Except.error (PyError.assertionError "Processing QA data is only supported with fast tokenizers for now.")
    | Tokenizer.fast t =>
        let encs := pre_baskets.map (fun d => t.encode_plus_ns d.context)
        match mapExcept (fun e => _get_start_of_word_QA e.words) encs with
        | Except.error e => Except.error e
        | Except.ok sows => qaDocs t indices 0 (pre_baskets.zip (encs.zip sows))

/-- The external tokenizer object used by `truncate_sequences`: the
`num_special_tokens_to_add(pair)` count and the library's
`truncate_sequences` primitive. -/
structure TruncTokenizer (α : Type) where
  num_special_tokens_to_add : Bool → Nat
  truncate_sequences : List α → Option (List α) → Nat → String → Nat →
    Except PyError (List α × Option (List α) × List α)

/-- Embedding of `truncate_sequences` (tokenization.py lines 272-317):
compute the total length (reserving special-token space when requested)
and delegate to the external primitive only when `max_seq_len` is truthy
and the total exceeds it; otherwise return both sequences unchanged with
an empty overflow list. -/
def truncate_sequences (seq_a : List α) (seq_b : Option (List α))
    (tokenizer : TruncTokenizer α) (max_seq_len : Nat)
    (truncation_strategy : String := "longest_first")
    (with_special_tokens : Bool := true) (stride : Nat := 0) :
    Except PyError (List α × Option (List α) × List α) :=
  let pair := seq_b.isSome
  let len_a := seq_a.length
  let len_b := (seq_b.getD []).length
  let num_special_tokens :=
    if with_special_tokens then tokenizer.num_special_tokens_to_add pair else 0
  let total_len := len_a + len_b + num_special_tokens
  if max_seq_len ≠ 0 ∧ total_len > max_seq_len then
    tokenizer.truncate_sequences seq_a seq_b (total_len - max_seq_len)
      truncation_strategy stride
  else
    Except.ok (seq_a, seq_b, [])

/-- The `longest_first` loop of the external primitive: remove one element
at a time from the currently longer sequence; overflow collects only
elements removed from the first sequence. -/
def longestFirst (a b : List α) : Nat → List α × List α × List α
  | 0 => (a, b, [])
  | n + 1 =>
    if b.length < a.length then
      let r := longestFirst a.dropLast b n
      (r.1, r.2.1, r.2.2 ++ a.drop (a.length - 1))
    else
      let r := longestFirst a b.dropLast n
      r

/-- Modelled from the spec: the external tokenizer library's
`truncate_sequences` primitive is not part of this repository; it is
modelled from spec section 4.4 and the docstring of the wrapper
(tokenization.py lines 286-291): `longest_first` iteratively reduces the
longer sequence, `only_first` truncates only the first sequence and fails
when it cannot supply enough length, `only_second` truncates only the
second, and `do_not_truncate` "does not truncate (raise an error if the
input sequence is longer than max_length)". -/
def hf_truncate_sequences (ids : List α) (pair_ids : Option (List α))
    (num_tokens_to_remove : Nat) (truncation_strategy : String) (stride : Nat) :
    Except PyError (List α × Option (List α) × List α) :=
  if num_tokens_to_remove = 0 then
    Except.ok (ids, pair_ids, [])
  else if truncation_strategy = "longest_first" then
    let r := longestFirst ids (pair_ids.getD []) num_tokens_to_remove
    Except.ok (r.1, if pair_ids.isSome then some r.2.1 else none, r.2.2)
  else if truncation_strategy = "only_first" then
    if num_tokens_to_remove < ids.length then
      Except.ok (ids.take (ids.length - num_tokens_to_remove), pair_ids,
        ids.drop (ids.length - min ids.length (stride + num_tokens_to_remove)))
    else
      Except.error (PyError.valueError "the first sequence cannot supply enough length to truncate")
  else if truncation_strategy = "only_second" then
    match pair_ids with
    | some p =>
      if num_tokens_to_remove < p.length then
        Except.ok (ids, some (p.take (p.length - num_tokens_to_remove)), [])
      else
        Except.error (PyError.valueError "the second sequence cannot supply enough length to truncate")
    | none => Except.error (PyError.valueError "only_second requires a pair of sequences")
  else if truncation_strategy = "do_not_truncate" then
    Except.error (PyError.valueError "input sequence is longer than max_length but truncation_strategy is do_not_truncate")
  else
    Except.error (PyError.valueError "invalid truncation strategy")

/-- A concrete truncation tokenizer over `Nat` sequences: two reserved
special tokens for a single sequence, three for a pair (the BERT counts),
delegating to the spec-modelled external primitive. -/
def demoTruncTokenizer : TruncTokenizer Nat :=
  ⟨fun pair => if pair then 3 else 2, fun i p n s st => hf_truncate_sequences i p n s st⟩


/-- Defined from the spec's words (for comparison with `normalize_ws`):
"all whitespace runs (including newlines/tabs) are normalized to single
spaces", i.e. each *maximal run* of whitespace characters is replaced by
one single space. -/
def collapseRunsChar : List Char → Bool → List Char
  | [], _ => []
  | c :: cs, prevWs =>
    if isPyWhitespace c then
      if prevWs then collapseRunsChar cs true
      else ' ' :: collapseRunsChar cs true
    else c :: collapseRunsChar cs false

/-- Defined from the spec's words: whitespace-run collapsing normalization. -/
def spec_collapse_ws_runs (s : String) : String :=
  ⟨collapseRunsChar s.data false⟩

/-- Alignment of the three arrays of a tokenization result: equal lengths
of tokens, offsets and start-of-word flags. -/
def TokenizedDict.aligned : TokenizedDict → Prop
  | TokenizedDict.fast d =>
      d.tokens.length = d.offsets.length ∧ d.offsets.length = d.start_of_word.length
  | TokenizedDict.slow d =>
      d.tokens.length = d.offsets.length ∧ d.offsets.length = d.start_of_word.length

/-- A fast tokenizer that encodes a text into two tokens whose ids record
the length of the text it was handed (used to observe which text the
tokenizer actually receives). -/
def echoFast : FastTokenizer :=
  let enc : String → Encoding := fun s =>
    { input_ids := [s.data.length, s.data.length]
      offset_mapping := [(0, 0), (0, 0)]
      words := [some 0, some 1]
      tokens := [s, s]
      len_off := rfl
      len_words := rfl }
  ⟨enc, enc⟩

/-- A fast tokenizer in the style of BERT: a special `[CLS]` token (no
source word), one real token for the whole text, and a special `[SEP]`
token. -/
def clsFast : FastTokenizer :=
  let enc : String → Encoding := fun s =>
    { input_ids := [101, 7, 102]
      offset_mapping := [(0, 0), (0, s.data.length), (0, 0)]
      words := [none, some 0, none]
      tokens := ["[CLS]", s, "[SEP]"]
      len_off := rfl
      len_words := rfl }
  ⟨enc, enc⟩

/-- A fast tokenizer producing exactly one token per text (as
`batch_encode_plus(..., add_special_tokens=False)` would for a
single-word text). -/
def demoQAFast : FastTokenizer :=
  let enc : String → Encoding := fun s =>
    { input_ids := [1]
      offset_mapping := [(0, 1)]
      words := [some 0]
      tokens := [s]
      len_off := rfl
      len_words := rfl }
  ⟨enc, enc⟩

/-- A one-document batch with two questions. -/
def demoPre3 : List PreBasket :=
  [⟨"c", [⟨"e1", "q", []⟩, ⟨"e2", "r", []⟩]⟩]

/-- The two baskets `tokenize_batch_question_answering` builds from
`demoPre3` with `indices = [5]` and the tokenizer `demoQAFast`. -/
def demoRes3 : List SampleBasket :=
  [{ raw :=
      { document_text := "c", document_tokens := [1], document_offsets := [0]
        document_start_of_word := [1], question_text := "q", question_tokens := [1]
        question_offsets := [0], question_start_of_word := [1], answers := []
        document_tokens_strings := ["c"], question_tokens_strings := ["q"] }
     id_internal := "5-0", id_external := "e1", samples := none },
   { raw :=
      { document_text := "c", document_tokens := [1], document_offsets := [0]
        document_start_of_word := [1], question_text := "r", question_tokens := [1]
        question_offsets := [0], question_start_of_word := [1], answers := []
        document_tokens_strings := ["c"], question_tokens_strings := ["r"] }
     id_internal := "5-1", id_external := "e2", samples := none }]

/-- A one-document, one-question batch (first parallel worker). -/
def demoPre9a : List PreBasket := [⟨"c", [⟨"e1", "q", []⟩]⟩]

/-- A one-document, one-question batch (second parallel worker). -/
def demoPre9b : List PreBasket := [⟨"d", [⟨"e2", "r", []⟩]⟩]

/-- The basket built from `demoPre9a` with `indices = [0]`. -/
def demoB9a : SampleBasket :=
  { raw :=
      { document_text := "c", document_tokens := [1], document_offsets := [0]
        document_start_of_word := [1], question_text := "q", question_tokens := [1]
        question_offsets := [0], question_start_of_word := [1], answers := []
        document_tokens_strings := ["c"], question_tokens_strings := ["q"] }
    id_internal := "0-0", id_external := "e1", samples := none }

/-- The basket built from `demoPre9b` with `indices = [1]`. -/
def demoB9b : SampleBasket :=
  { raw :=
      { document_text := "d", document_tokens := [1], document_offsets := [0]
        document_start_of_word := [1], question_text := "r", question_tokens := [1]
        question_offsets := [0], question_start_of_word := [1], answers := []
        document_tokens_strings := ["d"], question_tokens_strings := ["r"] }
    id_internal := "1-0", id_external := "e2", samples := none }


/-- The numeric value of a decimal digit string (used to invert `Nat.repr`). -/
def decVal (l : List Char) : Nat :=
  l.foldl (fun a c => 10 * a + (c.toNat - 48)) 0

/-! ### Helper lemmas about decimal rendering (`Nat.repr`) -/

theorem digitChar_isDigit : ∀ m, m < 10 → (Nat.digitChar m).isDigit = true := by decide

theorem isDigit_ne_dash (c : Char) (h : c.isDigit = true) : c ≠ '-' := by
  intro heq
  subst heq
  simp [Char.isDigit] at h

theorem toDigitsCore_mem (fuel : Nat) :
    ∀ (n : Nat) (ds : List Char), (∀ c ∈ ds, c.isDigit = true) →
      ∀ c ∈ Nat.toDigitsCore 10 fuel n ds, c.isDigit = true := by
  induction fuel with
  | zero => intro n ds hds; simpa [Nat.toDigitsCore] using hds
  | succ f ih =>
    intro n ds hds c hc
    simp only [Nat.toDigitsCore] at hc
    by_cases h : n / 10 = 0
    · rw [if_pos h] at hc
      rcases List.mem_cons.mp hc with rfl | hmem
      · exact digitChar_isDigit _ (Nat.mod_lt _ (by norm_num))
      · exact hds _ hmem
    · rw [if_neg h] at hc
      refine ih _ _ ?_ c hc
      intro c' hc'
      rcases List.mem_cons.mp hc' with rfl | hmem
      · exact digitChar_isDigit _ (Nat.mod_lt _ (by norm_num))
      · exact hds _ hmem

theorem toDigitsCore_acc (fuel : Nat) :
    ∀ (n : Nat) (ds : List Char),
      Nat.toDigitsCore 10 fuel n ds = Nat.toDigitsCore 10 fuel n [] ++ ds := by
  induction fuel with
  | zero => intro n ds; simp [Nat.toDigitsCore]
  | succ f ih =>
    intro n ds
    simp only [Nat.toDigitsCore]
    by_cases h : n / 10 = 0
    · rw [if_pos h, if_pos h]; rfl
    · rw [if_neg h, if_neg h, ih (n / 10) (Nat.digitChar (n % 10) :: ds),
        ih (n / 10) [Nat.digitChar (n % 10)]]
      simp

theorem digitChar_val : ∀ m, m < 10 → (Nat.digitChar m).toNat - 48 = m := by decide

theorem decVal_append_singleton (xs : List Char) (d : Char) :
    decVal (xs ++ [d]) = 10 * decVal xs + (d.toNat - 48) := by
  simp [decVal, List.foldl_append]

theorem toDigitsCore_val (fuel : Nat) :
    ∀ n, n < fuel → decVal (Nat.toDigitsCore 10 fuel n []) = n := by
  induction fuel with
  | zero => intro n hn; omega
  | succ f ih =>
    intro n hn
    simp only [Nat.toDigitsCore]
    by_cases h : n / 10 = 0
    · rw [if_pos h]
      have hlt : n < 10 := by omega
      have hv : (Nat.digitChar (n % 10)).toNat - 48 = n % 10 :=
        digitChar_val _ (Nat.mod_lt _ (by norm_num))
      simp only [decVal, List.foldl_cons, List.foldl_nil, Nat.mul_zero, Nat.zero_add]
      omega
    · rw [if_neg h, toDigitsCore_acc, decVal_append_singleton]
      have h1 : n / 10 < f := by
        have h2 : n / 10 < n := Nat.div_lt_self (by omega) (by norm_num)
        omega
      rw [ih _ h1, digitChar_val _ (Nat.mod_lt _ (by norm_num))]
      omega

theorem str_ext {s t : String} (h : s.data = t.data) : s = t := by
  cases s; cases t; exact congrArg String.mk h

theorem str_data_append (s t : String) : (s ++ t).data = s.data ++ t.data := by
  cases s; cases t; rfl

theorem repr_data (n : Nat) : (Nat.repr n).data = Nat.toDigitsCore 10 (n + 1) n [] := rfl

theorem repr_inj {m n : Nat} (h : Nat.repr m = Nat.repr n) : m = n := by
  have hd : Nat.toDigitsCore 10 (m + 1) m [] = Nat.toDigitsCore 10 (n + 1) n [] := by
    have := congrArg String.data h
    rwa [repr_data, repr_data] at this
  have hm := toDigitsCore_val (m + 1) m (Nat.lt_succ_self m)
  have hn := toDigitsCore_val (n + 1) n (Nat.lt_succ_self n)
  rw [hd] at hm
  omega

theorem repr_ne_dash (n : Nat) : ∀ c ∈ (Nat.repr n).data, c ≠ '-' := by
  intro c hc
  rw [repr_data] at hc
  exact isDigit_ne_dash c (toDigitsCore_mem (n + 1) n [] (by simp) c hc)

theorem dash_split :
    ∀ (d1 d2 r1 r2 : List Char), (∀ c ∈ d1, c ≠ '-') → (∀ c ∈ d2, c ≠ '-') →
      d1 ++ '-' :: r1 = d2 ++ '-' :: r2 → d1 = d2 ∧ r1 = r2 := by
  intro d1
  induction d1 with
  | nil =>
    intro d2 r1 r2 _ h2 heq
    cases d2 with
    | nil => simpa using heq
    | cons b bs =>
      exfalso
      have hb : b = '-' := by
        have := congrArg List.head? heq
        simpa using this.symm
      exact h2 b (List.mem_cons_self b bs) hb
  | cons a as ih =>
    intro d2 r1 r2 h1 h2 heq
    cases d2 with
    | nil =>
      exfalso
      have ha : a = '-' := by
        have := congrArg List.head? heq
        simpa using this
      exact h1 a (List.mem_cons_self a as) ha
    | cons b bs =>
      simp only [List.cons_append, List.cons.injEq] at heq
      obtain ⟨hab, htl⟩ := heq
      obtain ⟨hds, hrs⟩ := ih bs r1 r2
        (fun c hc => h1 c (List.mem_cons_of_mem a hc))
        (fun c hc => h2 c (List.mem_cons_of_mem b hc)) htl
      exact ⟨by rw [hab, hds], hrs⟩

/-- The internal id `f"{i}-{q}"` determines the worker-assigned index `i`. -/
theorem internal_id_inj_fst {i1 q1 i2 q2 : Nat}
    (h : Nat.repr i1 ++ "-" ++ Nat.repr q1 = Nat.repr i2 ++ "-" ++ Nat.repr q2) :
    i1 = i2 := by
  have hd := congrArg String.data h
  rw [str_data_append, str_data_append, str_data_append, str_data_append] at hd
  have hd' : (Nat.repr i1).data ++ '-' :: (Nat.repr q1).data
      = (Nat.repr i2).data ++ '-' :: (Nat.repr q2).data := by
    simpa using hd
  obtain ⟨h1, _⟩ := dash_split _ _ _ _ (repr_ne_dash i1) (repr_ne_dash i2) hd'
  exact repr_inj (str_ext h1)

/-! ### Structural lemmas about the embedded functions -/

theorem mapExcept_ok_length {f : α → Except PyError β} :
    ∀ {xs : List α} {ys : List β}, mapExcept f xs = Except.ok ys → ys.length = xs.length := by
  intro xs
  induction xs with
  | nil => intro ys h; simp only [mapExcept] at h; cases h; rfl
  | cons a as ih =>
    intro ys h
    simp only [mapExcept] at h
    cases hf : f a with
    | error e => rw [hf] at h; simp [Except.bind] at h
    | ok b =>
      rw [hf] at h
      cases hr : mapExcept f as with
      | error e => rw [hr] at h; simp [Except.bind] at h
      | ok bs =>
        rw [hr] at h
        simp only [Except.bind, Except.ok.injEq, pure, Except.pure] at h
        cases h
        simp [ih hr]

theorem ediff1dInt_length : ∀ l : List Int, (ediff1dInt l).length = l.length - 1 := by
  intro l
  induction l with
  | nil => rfl
  | cons a rest ih =>
    cases rest with
    | nil => rfl
    | cons b r =>
      simp only [ediff1dInt, List.length_cons] at ih ⊢
      omega

theorem sentinelAdjust_ok {l : List (Option Int)} {ws : List Int}
    (h : sentinelAdjust l = Except.ok ws) : ws.length = l.length ∧ 2 ≤ l.length := by
  unfold sentinelAdjust at h
  by_cases hl : l.length < 2
  · rw [if_pos hl] at h; simp [throw, throwThe, MonadExceptOf.throw] at h
  · rw [if_neg hl] at h
    have := mapExcept_ok_length h
    simp only [List.length_set] at this
    exact ⟨this, by omega⟩

theorem tokenMeta_length (t : SlowTokenizer) :
    ∀ (tw : List String) (off : Nat) (first : Bool),
      (tokenMeta t tw off first).1.length = tw.length ∧
      (tokenMeta t tw off first).2.length = tw.length := by
  intro tw
  induction tw with
  | nil => intro off first; exact ⟨rfl, rfl⟩
  | cons tok rest ih =>
    intro off first
    simp only [tokenMeta, List.length_cons]
    constructor
    · simpa using (ih _ false).1
    · simpa using (ih _ false).2

theorem tokenMeta_head (t : SlowTokenizer) (tok : String) (rest : List String)
    (off : Nat) (first : Bool) :
    (tokenMeta t (tok :: rest) off first).2.head? = some first := by
  simp [tokenMeta]

theorem wordsToTokensGo_stuck (t : SlowTokenizer) :
    ∀ (pairs : List (String × Nat)) (accT : List String) (accO : List Nat)
      (accS : List Bool) (res : List String × List Nat × List Bool),
      accT ≠ [] → wordsToTokensGo t pairs accT accO accS = Except.ok res →
      res = (accT, accO, accS) := by
  intro pairs
  induction pairs with
  | nil =>
    intro accT accO accS res _ h
    simp only [wordsToTokensGo] at h
    cases h; rfl
  | cons p rest ih =>
    intro accT accO accS res hne h
    obtain ⟨w, w_off⟩ := p
    simp only [wordsToTokensGo] at h
    by_cases hw : w.data.length = 0
    · rw [if_pos hw] at h; exact ih _ _ _ _ hne h
    · rw [if_neg hw] at h
      have hTlen : ¬ accT.length = 0 := by
        intro h0; exact hne (List.length_eq_zero.mp h0)
      rw [if_neg hTlen] at h
      simp [throw, throwThe, MonadExceptOf.throw] at h

theorem wordsToTokensGo_first_sow (t : SlowTokenizer) :
    ∀ (pairs : List (String × Nat)) (res : List String × List Nat × List Bool),
      wordsToTokensGo t pairs [] [] [] = Except.ok res →
      res.2.2 ≠ [] → res.2.2.head? = some true := by
  intro pairs
  induction pairs with
  | nil =>
    intro res h hne
    simp only [wordsToTokensGo] at h
    cases h; simp at hne
  | cons p rest ih =>
    intro res h hne
    obtain ⟨w, w_off⟩ := p
    simp only [wordsToTokensGo] at h
    by_cases hw : w.data.length = 0
    · rw [if_pos hw] at h; exact ih res h hne
    · rw [if_neg hw, if_pos (show ([] : List String).length = 0 from rfl)] at h
      by_cases htw : (t.tokenize w).length = 0
      · rw [if_pos htw] at h; exact ih res h hne
      · rw [if_neg htw] at h
        obtain ⟨tok, tws, htoks⟩ : ∃ tok tws, t.tokenize w = tok :: tws := by
          cases hc : t.tokenize w with
          | nil => rw [hc] at htw; simp at htw
          | cons a as => exact ⟨a, as, rfl⟩
        rw [htoks] at h
        have hres := wordsToTokensGo_stuck t rest _ _ _ res (by simp) h
        rw [hres]
        simp only [List.nil_append]
        exact tokenMeta_head t tok tws w_off true

theorem wordsToTokensGo_aligned (t : SlowTokenizer) :
    ∀ (pairs : List (String × Nat)) (accT : List String) (accO : List Nat)
      (accS : List Bool) (res : List String × List Nat × List Bool),
      wordsToTokensGo t pairs accT accO accS = Except.ok res →
      accT.length = accO.length → accO.length = accS.length →
      res.1.length = res.2.1.length ∧ res.2.1.length = res.2.2.length := by
  intro pairs
  induction pairs with
  | nil =>
    intro accT accO accS res h h1 h2
    simp only [wordsToTokensGo] at h
    cases h; exact ⟨h1, h2⟩
  | cons p rest ih =>
    intro accT accO accS res h h1 h2
    obtain ⟨w, w_off⟩ := p
    simp only [wordsToTokensGo] at h
    by_cases hw : w.data.length = 0
    · rw [if_pos hw] at h; exact ih _ _ _ _ h h1 h2
    · rw [if_neg hw] at h
      by_cases hT : accT.length = 0
      · rw [if_pos hT] at h
        by_cases htw : (t.tokenize w).length = 0
        · rw [if_pos htw] at h; exact ih _ _ _ _ h h1 h2
        · rw [if_neg htw] at h
          refine ih _ _ _ _ h ?_ ?_
          · simp [tokenMeta_length, h1]
          · simp [tokenMeta_length, h2]
      · rw [if_neg hT] at h
        simp [throw, throwThe, MonadExceptOf.throw] at h

theorem getD_mem {l : List α} {i : Nat} (h : i < l.length) (d : α) : l.getD i d ∈ l := by
  rw [List.getD_eq_getElem l d h]
  exact List.getElem_mem h

theorem qaQuestions_length (t : FastTokenizer) (docIdx : Nat) (docText : String)
    (docEnc : Encoding) (docSow : List Int) :
    ∀ (qs : List QA) (i_q : Nat) (res : List SampleBasket),
      qaQuestions t docIdx docText docEnc docSow i_q qs = Except.ok res →
      res.length = qs.length := by
  intro qs
  induction qs with
  | nil =>
    intro i_q res h
    simp only [qaQuestions] at h
    cases h; rfl
  | cons q rest ih =>
    intro i_q res h
    simp only [qaQuestions] at h
    cases hsow : _get_start_of_word_QA (t.encode_plus_ns q.question).words with
    | error e => rw [hsow] at h; cases h
    | ok qsow =>
      rw [hsow] at h
      cases hrec : qaQuestions t docIdx docText docEnc docSow (i_q + 1) rest with
      | error e => rw [hrec] at h; cases h
      | ok more =>
        rw [hrec] at h
        cases h
        simp [ih _ _ hrec]

theorem qaQuestions_ids (t : FastTokenizer) (docIdx : Nat) (docText : String)
    (docEnc : Encoding) (docSow : List Int) :
    ∀ (qs : List QA) (i_q : Nat) (res : List SampleBasket),
      qaQuestions t docIdx docText docEnc docSow i_q qs = Except.ok res →
      ∀ b ∈ res, ∃ q : Nat, b.id_internal = Nat.repr docIdx ++ "-" ++ Nat.repr q := by
  intro qs
  induction qs with
  | nil =>
    intro i_q res h
    simp only [qaQuestions] at h
    cases h
    intro b hb; cases hb
  | cons q rest ih =>
    intro i_q res h
    simp only [qaQuestions] at h
    cases hsow : _get_start_of_word_QA (t.encode_plus_ns q.question).words with
    | error e => rw [hsow] at h; cases h
    | ok qsow =>
      rw [hsow] at h
      cases hrec : qaQuestions t docIdx docText docEnc docSow (i_q + 1) rest with
      | error e => rw [hrec] at h; cases h
      | ok more =>
        rw [hrec] at h
        cases h
        intro b hb
        rcases List.mem_cons.mp hb with rfl | hmem
        · exact ⟨i_q, rfl⟩
        · exact ih _ _ hrec b hmem

theorem qaDocs_length (t : FastTokenizer) (indices : List Nat) :
    ∀ (L : List (PreBasket × Encoding × List Int)) (i_doc : Nat) (res : List SampleBasket),
      qaDocs t indices i_doc L = Except.ok res →
      res.length = (L.map (fun x => x.1.qas.length)).sum := by
  intro L
  induction L with
  | nil =>
    intro i_doc res h
    simp only [qaDocs] at h
    cases h; rfl
  | cons x rest ih =>
    intro i_doc res h
    obtain ⟨d, enc, sow⟩ := x
    simp only [qaDocs] at h
    cases hq : qaQuestions t (indices.getD i_doc 0) d.context enc sow 0 d.qas with
    | error e => rw [hq] at h; cases h
    | ok bs =>
      rw [hq] at h
      cases hr : qaDocs t indices (i_doc + 1) rest with
      | error e => rw [hr] at h; cases h
      | ok more =>
        rw [hr] at h
        cases h
        simp [qaQuestions_length t _ _ _ _ _ _ _ hq, ih _ _ hr]

theorem qaDocs_ids (t : FastTokenizer) (indices : List Nat) :
    ∀ (L : List (PreBasket × Encoding × List Int)) (i_doc : Nat) (res : List SampleBasket),
      qaDocs t indices i_doc L = Except.ok res →
      i_doc + L.length ≤ indices.length →
      ∀ b ∈ res, ∃ i ∈ indices, ∃ q : Nat,
        b.id_internal = Nat.repr i ++ "-" ++ Nat.repr q := by
  intro L
  induction L with
  | nil =>
    intro i_doc res h _
    simp only [qaDocs] at h
    cases h
    intro b hb; cases hb
  | cons x rest ih =>
    intro i_doc res h hlen
    obtain ⟨d, enc, sow⟩ := x
    simp only [qaDocs] at h
    cases hq : qaQuestions t (indices.getD i_doc 0) d.context enc sow 0 d.qas with
    | error e => rw [hq] at h; cases h
    | ok bs =>
      rw [hq] at h
      cases hr : qaDocs t indices (i_doc + 1) rest with
      | error e => rw [hr] at h; cases h
      | ok more =>
        rw [hr] at h
        cases h
        intro b hb
        rcases List.mem_append.mp hb with hmem | hmem
        · obtain ⟨q, hq'⟩ := qaQuestions_ids t _ _ _ _ _ _ _ hq b hmem
          have hi : i_doc < indices.length := by
            simp only [List.length_cons] at hlen; omega
          exact ⟨indices.getD i_doc 0, getD_mem hi 0, q, hq'⟩
        · refine ih _ _ hr ?_ b hmem
          simp only [List.length_cons] at hlen; omega

theorem batch_qa_ok_lengths {pre_baskets : List PreBasket} {tokenizer : Tokenizer}
    {indices : List Nat} {res : List SampleBasket}
    (h : tokenize_batch_question_answering pre_baskets tokenizer indices = Except.ok res) :
    indices.length = pre_baskets.length := by
  unfold tokenize_batch_question_answering at h
  by_cases hlen : indices.length ≠ pre_baskets.length
  · rw [if_pos hlen] at h; cases h
  · omega

/-- The zipped per-document list processed by `qaDocs` has one entry per
input document and recovers the documents by first projection. -/
theorem batch_qa_zip (t : FastTokenizer) (pre_baskets : List PreBasket)
    {sows : List (List Int)}
    (hs : mapExcept (fun e => _get_start_of_word_QA e.words)
      (pre_baskets.map (fun d => t.encode_plus_ns d.context)) = Except.ok sows) :
    (pre_baskets.zip ((pre_baskets.map (fun d => t.encode_plus_ns d.context)).zip sows)).length
        = pre_baskets.length ∧
    (pre_baskets.zip ((pre_baskets.map (fun d => t.encode_plus_ns d.context)).zip sows)).map
        (fun x => x.1) = pre_baskets := by
  have hsl : sows.length = pre_baskets.length := by
    have := mapExcept_ok_length hs
    simpa using this
  have hz : ((pre_baskets.map (fun d => t.encode_plus_ns d.context)).zip sows).length
      = pre_baskets.length := by
    simp [List.length_zip, hsl]
  constructor
  · simp [List.length_zip, hz]
  · exact List.map_fst_zip _ _ (by omega)

theorem subWsChar_map (l : List Char) :
    subWsChar l = l.map (fun ch => if isPyWhitespace ch then ' ' else ch) := by
  induction l with
  | nil => rfl
  | cons c cs ih => simp [subWsChar, ih]

theorem subWsChar_idem (l : List Char) : subWsChar (subWsChar l) = subWsChar l := by
  induction l with
  | nil => rfl
  | cons c cs ih =>
    cases hc : isPyWhitespace c with
    | false => simp [subWsChar, hc, ih]
    | true => simp [subWsChar, hc, ih, show isPyWhitespace ' ' = true from by decide]

theorem normalize_ws_idem (s : String) : normalize_ws (normalize_ws s) = normalize_ws s :=
  str_ext (subWsChar_idem s.data)

theorem tokenizeFast_ok {t : FastTokenizer} {text : String} {d : FastDict}
    (h : tokenizeFast t text = Except.ok d) :
    ∃ ws, sentinelAdjust (t.encode_plus text).words = Except.ok ws ∧
      d = ⟨(t.encode_plus text).input_ids,
           (t.encode_plus text).offset_mapping.map Prod.fst, 0 :: ediff1dInt ws⟩ := by
  simp only [tokenizeFast] at h
  cases hs : sentinelAdjust (t.encode_plus text).words with
  | error e => rw [hs] at h; cases h
  | ok ws => rw [hs] at h; cases h; exact ⟨ws, rfl, rfl⟩

theorem tokenizeSlow_ok {t : SlowTokenizer} {text : String} {sd : SlowDict}
    (h : tokenizeSlow t text = Except.ok sd) :
    ∃ r, _words_to_tokens t (pySplitSpace text) (wordOffsets (pySplitSpace text) 0)
        = Except.ok r ∧ sd = ⟨r.1, r.2.1, r.2.2⟩ := by
  simp only [tokenizeSlow] at h
  cases hs : _words_to_tokens t (pySplitSpace text) (wordOffsets (pySplitSpace text) 0) with
  | error e => rw [hs] at h; cases h
  | ok r =>
    obtain ⟨tks, offs, sow⟩ := r
    rw [hs] at h; cases h; exact ⟨(tks, offs, sow), rfl, rfl⟩

theorem twm_fast_ok {t : FastTokenizer} {text : String} {d : TokenizedDict}
    (h : tokenize_with_metadata (Tokenizer.fast t) text = Except.ok d) :
    ∃ fd, tokenizeFast t (normalize_ws text) = Except.ok fd ∧ d = TokenizedDict.fast fd := by
  simp only [tokenize_with_metadata] at h
  cases hf : tokenizeFast t (normalize_ws text) with
  | error e => rw [hf] at h; cases h
  | ok fd => rw [hf] at h; cases h; exact ⟨fd, rfl, rfl⟩

theorem twm_slow_ok {t : SlowTokenizer} {text : String} {d : TokenizedDict}
    (h : tokenize_with_metadata (Tokenizer.slow t) text = Except.ok d) :
    ∃ sd, tokenizeSlow t (normalize_ws text) = Except.ok sd ∧ d = TokenizedDict.slow sd := by
  simp only [tokenize_with_metadata] at h
  cases hf : tokenizeSlow t (normalize_ws text) with
  | error e => rw [hf] at h; cases h
  | ok sd => rw [hf] at h; cases h; exact ⟨sd, rfl, rfl⟩

theorem batch_qa_ids {pre_baskets : List PreBasket} {tokenizer : Tokenizer}
    {indices : List Nat} {res : List SampleBasket}
    (h : tokenize_batch_question_answering pre_baskets tokenizer indices = Except.ok res) :
    ∀ b ∈ res, ∃ i ∈ indices, ∃ q : Nat,
      b.id_internal = Nat.repr i ++ "-" ++ Nat.repr q := by
  have hlen := batch_qa_ok_lengths h
  cases tokenizer with
  | slow t =>
    simp only [tokenize_batch_question_answering] at h
    rw [if_neg (by omega)] at h
    cases h
  | fast t =>
    simp only [tokenize_batch_question_answering] at h
    rw [if_neg (by omega)] at h
    cases hs : mapExcept (fun e => _get_start_of_word_QA e.words)
        (pre_baskets.map (fun d => t.encode_plus_ns d.context)) with
    | error e => rw [hs] at h; cases h
    | ok sows =>
      rw [hs] at h
      obtain ⟨hzl, _⟩ := batch_qa_zip t pre_baskets hs
      exact qaDocs_ids t indices _ 0 res h (by rw [hzl]; omega)

/-- C1: the claim states that when the model configuration loads
successfully from the primary location and the model type is in
`TOKENIZERS_MAPPING`, `_infer_tokenizer_classname` returns the mapped
tokenizer class name without raising.  The code instead raises
`UnboundLocalError` on every primary-load success, for every mapping and
hint table: the assignments of `model_type` and `tokenizer_classname`
(lines 91-92) live only inside the `except OSError` branch, so line 101
reads `tokenizer_classname` before any assignment. -/
theorem c1_primary_config_unbound_local (c : HFConfig) (secondary : LoadResult)
    (mapping : String → Option String) (hints : List (String × String)) (name : String) :
    _infer_tokenizer_classname (LoadResult.ok c) secondary mapping hints name
      = Except.error (PyError.unboundLocal "tokenizer_classname") := rfl

/-- C2: the claim states that a model name containing a known substring
hint, with no retrievable config from either location, resolves to the
hint-mapped tokenizer class without raising.  The code instead raises
`NameError` for every model name whatsoever: the `except Exception`
handler of the secondary load (line 96) calls
`Tokenizer._infer_tokenizer_class_from_string`, but no name `Tokenizer`
is defined or imported in the module. -/
theorem c2_no_config_name_error (mapping : String → Option String)
    (hints : List (String × String)) (name : String) :
    _infer_tokenizer_classname LoadResult.osError LoadResult.osError mapping hints name
      = Except.error (PyError.nameError "Tokenizer") := rfl

/-- C3 (counterexample): a batch of one document carrying two questions
produces two baskets, not one -- `baskets.append` sits inside the
per-question loop, so the routine returns one basket per question, not
one per document. -/
theorem c3_counterexample :
    demoPre3.length = 1 ∧
    tokenize_batch_question_answering demoPre3 (Tokenizer.fast demoQAFast) [5]
      = Except.ok demoRes3 ∧
    demoRes3.length = 2 := by
  refine ⟨rfl, by decide, rfl⟩

/-- C3 (amended): for every batch of records with a matching index list
and a fast tokenizer, a successful run of
`tokenize_batch_question_answering` returns exactly one basket per
*(document, question)* pair: the number of baskets is the sum over the
documents of their question counts, each basket pairing the document's
tokenization with a single question. -/
theorem c3_one_basket_per_question (pre_baskets : List PreBasket) (tokenizer : Tokenizer)
    (indices : List Nat) (res : List SampleBasket)
    (h : tokenize_batch_question_answering pre_baskets tokenizer indices = Except.ok res) :
    res.length = (pre_baskets.map (fun d => d.qas.length)).sum := by
  have hlen := batch_qa_ok_lengths h
  cases tokenizer with
  | slow t =>
    simp only [tokenize_batch_question_answering] at h
    rw [if_neg (by omega)] at h
    cases h
  | fast t =>
    simp only [tokenize_batch_question_answering] at h
    rw [if_neg (by omega)] at h
    cases hs : mapExcept (fun e => _get_start_of_word_QA e.words)
        (pre_baskets.map (fun d => t.encode_plus_ns d.context)) with
    | error e => rw [hs] at h; cases h
    | ok sows =>
      rw [hs] at h
      obtain ⟨hzl, hzm⟩ := batch_qa_zip t pre_baskets hs
      have hL := qaDocs_length t indices _ 0 res h
      rw [hL]
      have hmm :
          ((pre_baskets.zip ((pre_baskets.map (fun d => t.encode_plus_ns d.context)).zip
            sows)).map (fun x => x.1)).map (fun d => d.qas.length)
          = pre_baskets.map (fun d => d.qas.length) := by rw [hzm]
      rw [← hmm, List.map_map]
      rfl

/-- C3 (witness): concrete application of `c3_one_basket_per_question`. -/
theorem c3_witness : demoRes3.length = (demoPre3.map (fun d => d.qas.length)).sum :=
  c3_one_basket_per_question demoPre3 (Tokenizer.fast demoQAFast) [5] demoRes3 (by decide)

/-- C4: the claim states that `"Berlin is a city"` on the slow path with a
one-token-per-word subword splitter yields offsets `[0, 7, 10, 12]` and
start-of-word `[True, True, True, True]`.  The words are indeed split and
given those word offsets, but the slow path raises
`NameError: name 'RobertaTokenizer' is not defined` as soon as it reaches
the second word: line 349 compares against `RobertaTokenizer`, which the
module never imports. -/
theorem c4_slow_path_name_error :
    pySplitSpace "Berlin is a city" = ["Berlin", "is", "a", "city"] ∧
    wordOffsets ["Berlin", "is", "a", "city"] 0 = [0, 7, 10, 12] ∧
    tokenize_with_metadata (Tokenizer.slow oneTokenSlow) "Berlin is a city"
      = Except.error (PyError.nameError "RobertaTokenizer") := by
  refine ⟨by decide, by decide, by decide⟩

/-- C5 (counterexample): whitespace runs are *not* collapsed.  On
`"a\n\nb"` the code produces `"a  b"` (two spaces, one per whitespace
character), while the claimed run-collapsing normalization would produce
`"a b"`; a tokenizer observing its input distinguishes the two. -/
theorem c5_counterexample :
    normalize_ws "a\n\nb" = "a  b" ∧
    spec_collapse_ws_runs "a\n\nb" = "a b" ∧
    tokenize_with_metadata (Tokenizer.fast echoFast) "a\n\nb"
      = tokenize_with_metadata (Tokenizer.fast echoFast) "a  b" ∧
    tokenize_with_metadata (Tokenizer.fast echoFast) "a\n\nb"
      ≠ tokenize_with_metadata (Tokenizer.fast echoFast) "a b" := by
  refine ⟨by decide, by decide, by decide, by decide⟩

/-- C5 (amended): before tokenization, `tokenize_with_metadata` replaces
each *individual* whitespace character (newlines and tabs included) by one
single space -- a length-preserving, character-wise normalization; runs of
N whitespace characters become N spaces, not one.  The text actually
tokenized is exactly this normalization of the input: tokenizing the
already-normalized text changes nothing. -/
theorem c5_charwise_whitespace_normalization (tokenizer : Tokenizer) (text : String) :
    (normalize_ws text).data
      = text.data.map (fun ch => if isPyWhitespace ch then ' ' else ch) ∧
    tokenize_with_metadata tokenizer text
      = tokenize_with_metadata tokenizer (normalize_ws text) := by
  constructor
  · exact subWsChar_map text.data
  · cases tokenizer with
    | fast t => simp only [tokenize_with_metadata, normalize_ws_idem]
    | slow t => simp only [tokenize_with_metadata, normalize_ws_idem]

/-- C6 (counterexample): on the fast path the first produced token is
*not* marked as a word start.  The flag list is built as
`[0] + ediff1d(words)`, so position 0 always carries flag `0` (falsy).
Here a BERT-style encoding of `"Berlin"` (`[CLS] Berlin [SEP]`) yields
`start_of_word = [0, 1, 0]`: the claim that the first produced token is a
word start after the sentinel adjustment is false. -/
theorem c6_counterexample :
    tokenize_with_metadata (Tokenizer.fast clsFast) "Berlin"
      = Except.ok (TokenizedDict.fast ⟨[101, 7, 102], [0, 0, 0], [0, 1, 0]⟩) ∧
    (FastDict.mk [101, 7, 102] [0, 0, 0] [0, 1, 0]).start_of_word.headD 1 = 0 := by
  refine ⟨by decide, rfl⟩

/-- C6 (amended): on the slow path, the first produced token of a
non-empty result is always marked as a word start; on the fast path the
sentinel adjustment forces the flag of the first produced token to `0`,
so the first produced token is *never* marked as a word start (the first
non-special token is, instead). -/
theorem c6_first_token_word_start :
    (∀ (t : SlowTokenizer) (text : String) (d : SlowDict),
      tokenize_with_metadata (Tokenizer.slow t) text = Except.ok (TokenizedDict.slow d) →
      d.start_of_word ≠ [] → d.start_of_word.head? = some true) ∧
    (∀ (t : FastTokenizer) (text : String) (d : FastDict),
      tokenize_with_metadata (Tokenizer.fast t) text = Except.ok (TokenizedDict.fast d) →
      d.start_of_word.head? = some 0) := by
  constructor
  · intro t text d h hne
    obtain ⟨sd, hok, hd⟩ := twm_slow_ok h
    have hds : d = sd := by injection hd
    subst hds
    obtain ⟨r, hw, hr⟩ := tokenizeSlow_ok hok
    rw [hr] at hne ⊢
    exact wordsToTokensGo_first_sow t _ r hw hne
  · intro t text d h
    obtain ⟨fd, hok, hd⟩ := twm_fast_ok h
    have hdf : d = fd := by injection hd
    subst hdf
    obtain ⟨ws, hws, hfd⟩ := tokenizeFast_ok hok
    rw [hfd]
    rfl

/-- C6 (witness): concrete applications of `c6_first_token_word_start`:
the slow path on `"Berlin"` marks the single token as a word start, the
fast path on the BERT-style encoding flags the first token `0`. -/
theorem c6_witness :
    (SlowDict.mk ["Berlin"] [0] [true]).start_of_word.head? = some true ∧
    (FastDict.mk [101, 7, 102] [0, 0, 0] [0, 1, 0]).start_of_word.head? = some 0 :=
  ⟨c6_first_token_word_start.1 oneTokenSlow "Berlin" (SlowDict.mk ["Berlin"] [0] [true])
      (by decide) (by decide),
   c6_first_token_word_start.2 clsFast "Berlin" (FastDict.mk [101, 7, 102] [0, 0, 0] [0, 1, 0])
      (by decide)⟩

/-- C7: whenever `tokenize_with_metadata` returns a dictionary -- on
either the fast or the slow path -- its `tokens`, `offsets` and
`start_of_word` lists have equal length. -/
theorem c7_aligned_lengths (tokenizer : Tokenizer) (text : String) (d : TokenizedDict)
    (h : tokenize_with_metadata tokenizer text = Except.ok d) : d.aligned := by
  cases tokenizer with
  | fast t =>
    obtain ⟨fd, hok, hd⟩ := twm_fast_ok h
    subst hd
    obtain ⟨ws, hws, hfd⟩ := tokenizeFast_ok hok
    obtain ⟨hwl, h2⟩ := sentinelAdjust_ok hws
    subst hfd
    have e1 := (t.encode_plus (normalize_ws text)).len_off
    have e2 := (t.encode_plus (normalize_ws text)).len_words
    have e3 := ediff1dInt_length ws
    simp only [TokenizedDict.aligned]
    constructor
    · simp only [List.length_map]; omega
    · simp only [List.length_map, List.length_cons, e3]; omega
  | slow t =>
    obtain ⟨sd, hok, hd⟩ := twm_slow_ok h
    subst hd
    obtain ⟨r, hw, hr⟩ := tokenizeSlow_ok hok
    subst hr
    simp only [TokenizedDict.aligned]
    exact wordsToTokensGo_aligned t _ [] [] [] r hw rfl rfl

/-- C7 (witness): concrete application of `c7_aligned_lengths` on the
fast path. -/
theorem c7_witness :
    TokenizedDict.aligned (TokenizedDict.fast ⟨[101, 7, 102], [0, 0, 0], [0, 1, 0]⟩) :=
  c7_aligned_lengths (Tokenizer.fast clsFast) "Berlin"
    (TokenizedDict.fast ⟨[101, 7, 102], [0, 0, 0], [0, 1, 0]⟩) (by decide)

/-- C8 (counterexample): with `max_seq_len = 0` (falsy in Python) the
guard `if max_seq_len and total_len > max_seq_len` is never taken, so a
sequence of length 1 -- which exceeds `max_seq_len = 0` -- is returned
unchanged with no error under `do_not_truncate`, contradicting the claim
that any sequence exceeding `max_seq_len` raises. -/
theorem c8_counterexample :
    truncate_sequences [1] none demoTruncTokenizer 0 "do_not_truncate" false 0
      = Except.ok ([1], none, []) ∧
    ([1] : List Nat).length > 0 := by
  refine ⟨by decide, by decide⟩

/-- C8 (amended): provided `max_seq_len` is nonzero, calling
`truncate_sequences` with `truncation_strategy="do_not_truncate"` on
sequences whose total length (including the reserved special-token count
when requested) exceeds `max_seq_len` raises an error -- the delegated
error of the (spec-modelled) external truncation primitive -- rather than
silently truncating or returning the overlong sequence. -/
theorem c8_do_not_truncate_raises {α : Type} (seq_a : List α) (seq_b : Option (List α))
    (nspec : Bool → Nat) (with_special_tokens : Bool) (stride : Nat) (max_seq_len : Nat)
    (hmax : max_seq_len ≠ 0)
    (hover : seq_a.length + (seq_b.getD []).length
      + (if with_special_tokens then nspec seq_b.isSome else 0) > max_seq_len) :
    truncate_sequences seq_a seq_b
      (TruncTokenizer.mk nspec (fun i p n s st => hf_truncate_sequences i p n s st))
      max_seq_len "do_not_truncate" with_special_tokens stride
      = Except.error (PyError.valueError
          "input sequence is longer than max_length but truncation_strategy is do_not_truncate") := by
  simp only [truncate_sequences]
  rw [if_pos ⟨hmax, hover⟩]
  simp only [hf_truncate_sequences]
  rw [if_neg (by omega)]
  rfl

/-- C8 (witness): concrete application of `c8_do_not_truncate_raises`. -/
theorem c8_witness :
    truncate_sequences [1, 2, 3] none demoTruncTokenizer 2 "do_not_truncate" true 0
      = Except.error (PyError.valueError
          "input sequence is longer than max_length but truncation_strategy is do_not_truncate") :=
  c8_do_not_truncate_raises [1, 2, 3] none (fun pair => if pair then 3 else 2)
    true 0 2 (by decide) (by decide)

/-- C9: two runs of `tokenize_batch_question_answering` whose
worker-assigned index lists are disjoint can never produce colliding
internal ids: every internal id is `f"{indices[i_doc]}-{i_q}"`, and the
decimal part before the `-` recovers the worker-assigned index. -/
theorem c9_no_cross_batch_id_collision
    (pre1 pre2 : List PreBasket) (tok1 tok2 : Tokenizer) (idx1 idx2 : List Nat)
    (res1 res2 : List SampleBasket)
    (hdisj : ∀ i ∈ idx1, i ∉ idx2)
    (h1 : tokenize_batch_question_answering pre1 tok1 idx1 = Except.ok res1)
    (h2 : tokenize_batch_question_answering pre2 tok2 idx2 = Except.ok res2)
    (b1 : SampleBasket) (hb1 : b1 ∈ res1) (b2 : SampleBasket) (hb2 : b2 ∈ res2) :
    b1.id_internal ≠ b2.id_internal := by
  obtain ⟨i1, hi1, q1, he1⟩ := batch_qa_ids h1 b1 hb1
  obtain ⟨i2, hi2, q2, he2⟩ := batch_qa_ids h2 b2 hb2
  intro heq
  rw [he1, he2] at heq
  exact hdisj i1 hi1 (internal_id_inj_fst heq ▸ hi2)

/-- C9 (witness): concrete application of
`c9_no_cross_batch_id_collision` to two one-document batches with
disjoint index lists `[0]` and `[1]`. -/
theorem c9_witness : demoB9a.id_internal ≠ demoB9b.id_internal :=
  c9_no_cross_batch_id_collision demoPre9a demoPre9b
    (Tokenizer.fast demoQAFast) (Tokenizer.fast demoQAFast) [0] [1]
    [demoB9a] [demoB9b] (by decide) (by decide) (by decide)
    demoB9a (by decide) demoB9b (by decide)

/-- C10: whenever `max_seq_len` is `0` (falsy) or the total length
(both sequences plus the reserved special-token count when requested)
does not exceed `max_seq_len`, `truncate_sequences` returns both
sequences unchanged with an empty overflow list, for *every* truncation
strategy string, and the result does not depend on the external
truncation primitive at all (it is never invoked). -/
theorem c10_below_max_unchanged {α : Type} (seq_a : List α) (seq_b : Option (List α))
    (tok tok2 : TruncTokenizer α) (max_seq_len : Nat) (strategy : String)
    (with_special_tokens : Bool) (stride : Nat)
    (hsame : tok.num_special_tokens_to_add = tok2.num_special_tokens_to_add)
    (hcond : max_seq_len = 0 ∨ seq_a.length + (seq_b.getD []).length
      + (if with_special_tokens then tok.num_special_tokens_to_add seq_b.isSome else 0)
        ≤ max_seq_len) :
    truncate_sequences seq_a seq_b tok max_seq_len strategy with_special_tokens stride
      = Except.ok (seq_a, seq_b, []) ∧
    truncate_sequences seq_a seq_b tok max_seq_len strategy with_special_tokens stride
      = truncate_sequences seq_a seq_b tok2 max_seq_len strategy with_special_tokens stride := by
  have hnot : ¬ (max_seq_len ≠ 0 ∧ seq_a.length + (seq_b.getD []).length
      + (if with_special_tokens then tok.num_special_tokens_to_add seq_b.isSome else 0)
        > max_seq_len) := by
    rcases hcond with h0 | hle
    · intro hc; exact hc.1 h0
    · intro hc; omega
  have hnot2 : ¬ (max_seq_len ≠ 0 ∧ seq_a.length + (seq_b.getD []).length
      + (if with_special_tokens then tok2.num_special_tokens_to_add seq_b.isSome else 0)
        > max_seq_len) := by
    rw [← hsame]; exact hnot
  constructor
  · simp only [truncate_sequences]
    rw [if_neg hnot]
  · simp only [truncate_sequences]
    rw [if_neg hnot, if_neg hnot2]

/-- C10 (witness): concrete application of `c10_below_max_unchanged`. -/
theorem c10_witness :
    truncate_sequences [1, 2] none demoTruncTokenizer 10 "longest_first" true 0
      = Except.ok ([1, 2], none, []) :=
  (c10_below_max_unchanged [1, 2] none demoTruncTokenizer demoTruncTokenizer 10
    "longest_first" true 0 rfl (Or.inr (by decide))).1
